import Mathlib

/-!
Shallow embedding of the index synchronization engine of
backend/src/_index.ts (the exported async function index), together with the
store contracts it consumes (RecordManagerInterface and VectorStore).

The engine itself is translated from backend/src/_index.ts.  The four helper
functions it imports from the langchain library (_HashedDocument, _batch,
_deduplicateInOrder, _getSourceIdAssigner) are not part of this repository's
sources; they are modelled from the spec (sections 4.1 to 4.3 and 4.4 step 3)
and are marked as such in their doc comments.

JavaScript runtime details that the claims hinge on are embedded explicitly:
 - the spread merge of DEFAULTS and the options object distinguishes an
   absent key from a key present with value undefined;
 - the cleanup option is a runtime string (the TypeScript annotation only
   restricts it statically);
 - an array value is always truthy, including the empty array (the condition
   of the final full-cleanup while loop);
 - the refresh update of line 112 is called without await, so its failure is
   not observed by the run (fireAndForget below).

Store calls are sequenced in an error/state monad M over StoreState, which
additionally records the trace of issued contract calls and supports
injecting a failure into the n-th store call (failAt), so that error
propagation and call ordering can be stated and checked.
-/

/-- A document as the engine sees it: opaque text content plus metadata
(modelled as a list of key/value string pairs). -/
structure Doc where
  pageContent : String
  metadata : List (String × String)
deriving DecidableEq, Repr

/-- Look a key up in a metadata map (JavaScript property access on the
metadata object; absent key gives undefined, modelled as none). -/
def metaLookup (k : String) : List (String × String) → Option String
  | [] => none
  | p :: rest => if p.1 == k then some p.2 else metaLookup k rest

/-- Modelled from the spec (section 4.1): the content fingerprint is a pure
deterministic function of content and metadata.  The claims rely only on
determinism, so the hash is modelled as a canonical unambiguous encoding of
the pair rather than a cryptographic digest. -/
def specHash (d : Doc) : String :=
  d.pageContent ++ "|#|" ++
    String.intercalate "|;|" (d.metadata.map (fun p => p.1 ++ "|=|" ++ p.2))

/-- Modelled from the spec (sections 3 and 4.1): a fingerprinted document,
the _HashedDocument of the langchain library: the document fields plus the
content-derived uid. -/
structure _HashedDocument where
  pageContent : String
  metadata : List (String × String)
  uid : String
deriving DecidableEq, Repr

/-- Modelled from the spec (section 4.1): fingerprint a document. -/
def _HashedDocument.fromDocument (d : Doc) : _HashedDocument :=
  { pageContent := d.pageContent, metadata := d.metadata, uid := specHash d }

/-- Convert a fingerprinted document back to a plain document. -/
def _HashedDocument.toDocument (h : _HashedDocument) : Doc :=
  { pageContent := h.pageContent, metadata := h.metadata }

/-- Modelled from the spec (section 4.2): within one batch, scan in input
order keeping the first occurrence of each uid and dropping later
occurrences, implemented as a single scan with a seen set, as the langchain
library helper _deduplicateInOrder does. -/
def deduplicateGo (seen : List String) : List _HashedDocument → List _HashedDocument
  | [] => []
  | h :: rest =>
      if h.uid ∈ seen then deduplicateGo seen rest
      else h :: deduplicateGo (h.uid :: seen) rest

/-- Modelled from the spec (section 4.2): the batch deduplicator. -/
def _deduplicateInOrder (docs : List _HashedDocument) : List _HashedDocument :=
  deduplicateGo [] docs

/-- JavaScript comparison (length >= size) where size may be undefined: a
comparison with undefined is false. -/
def jsGeOpt (len : Nat) (size : Option Nat) : Bool :=
  match size with
  | some n => decide (n ≤ len)
  | none => false

/-- Modelled from the spec (section 4.4 step 3): split the input into
batches of batch_size documents in input order, as the langchain library
helper _batch does: accumulate items, emitting a batch whenever the
accumulator length reaches the size, and emit the non-empty remainder. -/
def batchGo (size : Option Nat) (cur : List Doc) : List Doc → List (List Doc)
  | [] => if cur.isEmpty then [] else [cur]
  | d :: rest =>
      let cur2 := cur ++ [d]
      if jsGeOpt cur2.length size then cur2 :: batchGo size [] rest
      else batchGo size cur2 rest

/-- Modelled from the spec (section 4.4 step 3): the batcher. -/
def _batch (size : Option Nat) (docs : List Doc) : List (List Doc) :=
  batchGo size [] docs

/-- The source id rule of the engine options: a fixed metadata field name or
an arbitrary function of the document (the sourceIdKey option). -/
inductive SourceIdKey where
  | field (key : String)
  | fn (f : Doc → Option String)

/-- JavaScript falsiness of the sourceIdKey value as used in the guard of
line 47: an empty string is falsy, a non-empty string or a function is
truthy. -/
def SourceIdKey.jsFalsy : SourceIdKey → Bool
  | .field key => key == ""
  | .fn _ => false

/-- Modelled from the spec (section 4.3): derive each document's group id
from the configured rule; a fixed field name reads that metadata key (null
when absent), a function rule applies the function. -/
def _getSourceIdAssigner (k : SourceIdKey) : _HashedDocument → Option String
  | h =>
    match k with
    | .field key => metaLookup key h.metadata
    | .fn f => f h.toDocument

/-- One ledger record of the record store: uid, current group id, last_seen
timestamp (section 6 record store contract). -/
structure LedgerRec where
  key : String
  groupId : Option String
  updatedAt : Nat
deriving DecidableEq, Repr

/-- A store contract call, as issued by the engine.  The trace of these
events is what the ordering and error claims are stated over. -/
inductive Event where
  | rmGetTime
  | rmExists (uids : List String)
  | rmUpdate (uids : List String) (groupIds : Option (List (Option String))) (timeAtLeast : Nat)
  | rmListKeys (groupIds : Option (List String)) (before : Option Nat) (limit : Option Nat)
  | rmDeleteKeys (uids : List String)
  | vsAddDocuments (docs : List Doc) (ids : List String)
  | vsDelete (ids : List String)
deriving DecidableEq, Repr

/-- The combined state of the two external stores, plus the observation
instrumentation: the trace of issued contract calls, the number of calls
issued so far, and an optional injected failure (the failAt-th call, counted
from 1, fails). -/
structure StoreState where
  ledger : List LedgerRec
  vectors : List (String × Doc)
  now : Nat
  trace : List Event
  callIdx : Nat
  failAt : Option Nat
deriving DecidableEq, Repr

/-- The engine's effect monad: state passing over the two stores plus
propagation of errors, exactly how a chain of awaited promise calls behaves
(an error aborts the rest of the chain). -/
def M (α : Type) : Type := StoreState → Except String α × StoreState

def M.pure (a : α) : M α := fun s => (Except.ok a, s)

def M.bind (x : M α) (f : α → M β) : M β := fun s =>
  match x s with
  | (Except.ok a, s1) => f a s1
  | (Except.error e, s1) => (Except.error e, s1)

instance : Monad M where
  pure := M.pure
  bind := M.bind

/-- Throwing an error in M (a rejected awaited promise). -/
def throwM (e : String) : M α := fun s => (Except.error e, s)

/-- Lift a pure fallible computation (a synchronous throw) into M. -/
def liftEx (x : Except String α) : M α := fun s => (x, s)

/-- Record a contract call in the trace and bump the call counter. -/
def recordEvent (s : StoreState) (ev : Event) : StoreState :=
  { s with trace := s.trace ++ [ev], callIdx := s.callIdx + 1 }

/-- Issue one store contract call: the call is recorded in the trace, then
either fails (when the injected failure schedule names this call) or
performs its effect act on the store state and returns its result. -/
def stepCall (ev : Event) (act : StoreState → α × StoreState) : M α := fun s =>
  if s.failAt = some (s.callIdx + 1) then
    (Except.error "store call failed", recordEvent s ev)
  else
    let r := act (recordEvent s ev)
    (Except.ok r.1, r.2)

/-- Record store get_time: returns the store clock. -/
def rmGetTime : M Nat :=
  stepCall Event.rmGetTime (fun s => (s.now, s))

/-- Record store exists: one boolean per uid, in order. -/
def rmExists (uids : List String) : M (List Bool) :=
  stepCall (Event.rmExists uids)
    (fun s => (uids.map (fun u => s.ledger.any (fun r => r.key == u)), s))

/-- Upsert one ledger record: create it when absent, else refresh the group
id and bump last_seen to no earlier than the given floor (section 6: update
never moves last_seen backward past time_at_least). -/
def ledgerUpdateOne (t : Nat) (led : List LedgerRec) (u : String) (g : Option String) :
    List LedgerRec :=
  if led.any (fun r => r.key == u) then
    led.map (fun r => if r.key == u then { r with groupId := g, updatedAt := max r.updatedAt t } else r)
  else
    led ++ [{ key := u, groupId := g, updatedAt := t }]

/-- The ledger after an update call: upsert every uid in order with its
group id (all-null group ids when the groupIds option is omitted, as the
store client does) and the time_at_least floor. -/
def ledgerUpdateMany (timeAtLeast : Nat) (led : List LedgerRec)
    (uids : List String) (groupIds : Option (List (Option String))) : List LedgerRec :=
  (uids.zip (groupIds.getD (uids.map (fun _ => none)))).foldl
    (fun acc p => ledgerUpdateOne timeAtLeast acc p.1 p.2) led

/-- Record store update. -/
def rmUpdate (uids : List String) (groupIds : Option (List (Option String)))
    (timeAtLeast : Nat) : M Unit :=
  stepCall (Event.rmUpdate uids groupIds timeAtLeast)
    (fun s => ((), { s with ledger := ledgerUpdateMany timeAtLeast s.ledger uids groupIds }))

/-- Does a ledger record match a list_keys filter? A group filter matches
only records whose group id is one of the listed (non-null) groups; a
before filter matches records with last_seen strictly earlier. -/
def ledgerMatches (groupIds : Option (List String)) (before : Option Nat)
    (r : LedgerRec) : Bool :=
  (match groupIds with
   | none => true
   | some gs => match r.groupId with
     | some g => gs.contains g
     | none => false) &&
  (match before with
   | none => true
   | some t => decide (r.updatedAt < t))

/-- The keys a list_keys call resolves with: the uids of matching ledger
records, up to the limit when one is given. -/
def listKeysPure (groupIds : Option (List String)) (before : Option Nat)
    (limit : Option Nat) (led : List LedgerRec) : List String :=
  let keys := (led.filter (ledgerMatches groupIds before)).map (fun r => r.key)
  match limit with
  | none => keys
  | some n => keys.take n

/-- Record store list_keys. -/
def rmListKeys (groupIds : Option (List String)) (before : Option Nat)
    (limit : Option Nat) : M (List String) :=
  stepCall (Event.rmListKeys groupIds before limit)
    (fun s => (listKeysPure groupIds before limit s.ledger, s))

/-- The ledger after a delete_keys call: the listed uids are dropped. -/
def ledgerDelete (led : List LedgerRec) (uids : List String) : List LedgerRec :=
  led.filter (fun r => !(uids.contains r.key))

/-- Record store delete_keys. -/
def rmDeleteKeys (uids : List String) : M Unit :=
  stepCall (Event.rmDeleteKeys uids)
    (fun s => ((), { s with ledger := ledgerDelete s.ledger uids }))

/-- The vector store contents after an add_documents call: each document is
stored under the id given at the same position, replacing any previous
vector with that id. -/
def vectorsAdd (vs : List (String × Doc)) (ids : List String) (docs : List Doc) :
    List (String × Doc) :=
  (ids.zip docs).foldl (fun acc p => acc.filter (fun q => q.1 != p.1) ++ [p]) vs

/-- Vector store add_documents. -/
def vsAddDocuments (docs : List Doc) (ids : List String) : M Unit :=
  stepCall (Event.vsAddDocuments docs ids)
    (fun s => ((), { s with vectors := vectorsAdd s.vectors ids docs }))

/-- The vector store contents after a delete call: the listed ids dropped. -/
def vectorsDelete (vs : List (String × Doc)) (ids : List String) : List (String × Doc) :=
  vs.filter (fun q => !(ids.contains q.1))

/-- Vector store delete. -/
def vsDelete (ids : List String) : M Unit :=
  stepCall (Event.vsDelete ids)
    (fun s => ((), { s with vectors := vectorsDelete s.vectors ids }))

/-- The fire-and-forget promise of line 112 of _index.ts: the refresh update
is called without await, so the call is issued (and its effect lands when it
succeeds) but a failure is never observed by the run. -/
def fireAndForget (m : M Unit) : M Unit := fun s =>
  match m s with
  | (Except.ok _, s1) => (Except.ok (), s1)
  | (Except.error _, s1) => (Except.ok (), s1)

/-- The DEFAULTS constant of _index.ts. -/
structure DefaultsShape where
  batchSize : Nat
  cleanupBatchSize : Nat
  forceUpdate : Bool
deriving DecidableEq, Repr

/-- DEFAULTS of _index.ts lines 7 to 11. -/
def DEFAULTS : DefaultsShape :=
  { batchSize := 100, cleanupBatchSize := 1000, forceUpdate := false }

/-- The options object passed to index, at the JavaScript runtime level.
For each key that DEFAULTS also carries, the outer Option states whether the
key is present on the object at all, and the inner Option whether its value
is defined (some none embeds a key explicitly set to undefined).  The
cleanup option is carried as a runtime string: its TypeScript annotation
(incremental or full) restricts it only statically. -/
structure IndexOptions where
  batchSize : Option (Option Nat) := none
  cleanup : Option String := none
  sourceIdKey : SourceIdKey
  cleanupBatchSize : Option (Option Nat) := none
  forceUpdate : Option (Option Bool) := none

/-- The option values the engine actually runs with. -/
structure ResolvedOptions where
  batchSize : Option Nat
  cleanup : Option String
  cleanupBatchSize : Option Nat
  forceUpdate : Option Bool
deriving DecidableEq, Repr

/-- The spread merge of line 45 of _index.ts: spreading options over
DEFAULTS replaces a default whenever the options object carries the key,
even when the carried value is undefined; the default survives only when
the key is absent. -/
def mergeDefaults (o : IndexOptions) : ResolvedOptions :=
  { batchSize :=
      match o.batchSize with
      | none => some DEFAULTS.batchSize
      | some v => v
    cleanup := o.cleanup
    cleanupBatchSize :=
      match o.cleanupBatchSize with
      | none => some DEFAULTS.cleanupBatchSize
      | some v => v
    forceUpdate :=
      match o.forceUpdate with
      | none => some DEFAULTS.forceUpdate
      | some v => v }

/-- JavaScript truthiness of the forceUpdate value (undefined is falsy). -/
def jsTruthyOptBool : Option Bool → Bool
  | some b => b
  | none => false

/-- The document source argument: a materialized array or a lazy loader
(whose load may fail). -/
inductive DocsSource where
  | arr (docs : List Doc)
  | loader (load : Unit → Except String (List Doc))

/-- Lines 51 to 60 of _index.ts: drain a lazy loader up front, wrapping a
loader failure; an array is used as is. -/
def loadDocs : DocsSource → Except String (List Doc)
  | .arr docs => Except.ok docs
  | .loader f =>
      match f () with
      | Except.ok docs => Except.ok docs
      | Except.error e => Except.error ("Error loading documents from source" ++ e)

/-- Lines 79 to 87 of _index.ts: under incremental cleanup walk the batch in
order and throw at the first document whose source id resolved to null. -/
def checkSourceIds : List _HashedDocument → List (Option String) → Except String Unit
  | _, [] => Except.ok ()
  | [], _ :: _ => Except.ok ()
  | h :: hs, sid :: sids =>
      if sid = none then
        Except.error ("Source ids are required when cleanup mode is incremental.\nDocument that starts with content: "
          ++ h.pageContent.take 100 ++ " was not assigned as source id.")
      else checkSourceIds hs sids

/-- Lines 137 to 141 of _index.ts: the second defensive null scan over the
batch source ids, before the incremental deletion. -/
def checkSourceIds2 : List (Option String) → Except String Unit
  | [] => Except.ok ()
  | none :: _ => Except.error "Source ids cannot be null here."
  | some _ :: sids => checkSourceIds2 sids

/-- Lines 95 to 108 of _index.ts: walk the deduplicated batch with its
existence bits and build (uids to write, documents to write, uids to
refresh): a document that exists while forceUpdate is falsy is only
refreshed, every other document is (re)written. -/
def partitionBatch (forceUpdate : Option Bool) :
    List (_HashedDocument × Bool) → List String × List Doc × List String
  | [] => ([], [], [])
  | p :: rest =>
      let acc := partitionBatch forceUpdate rest
      if p.2 && !(jsTruthyOptBool forceUpdate) then
        (acc.1, acc.2.1, p.1.uid :: acc.2.2)
      else
        (p.1.uid :: acc.1, p.1.toDocument :: acc.2.1, acc.2.2)

/-- The body of the batch loop of _index.ts (lines 70 to 158), returning the
increments this batch contributes to (numAdded, numSkipped, numDeleted).
isIncremental embeds the test cleanup === "incremental" on the immutable
cleanup value.  The refresh update of line 112 is issued fire and forget
(no await in the source); every other store call is awaited. -/
def processBatch (isIncremental : Bool) (forceUpdate : Option Bool)
    (assigner : _HashedDocument → Option String) (indexStartDt : Nat)
    (docBatch : List Doc) : M (Nat × Nat × Nat) :=
  let hashedDocs := _deduplicateInOrder (docBatch.map _HashedDocument.fromDocument)
  let sourceIds := hashedDocs.map assigner
  (if isIncremental then liftEx (checkSourceIds hashedDocs sourceIds) else M.pure ()) >>= fun _ =>
  rmExists (hashedDocs.map (fun h => h.uid)) >>= fun existsBatch =>
  let parts := partitionBatch forceUpdate (hashedDocs.zip existsBatch)
  let uids := parts.1
  let docsToIndex := parts.2.1
  let uidsToRefresh := parts.2.2
  (if uidsToRefresh.length ≠ 0 then
      fireAndForget (rmUpdate uidsToRefresh none indexStartDt) >>= fun _ =>
      M.pure uidsToRefresh.length
    else M.pure 0) >>= fun skippedInc =>
  (if docsToIndex.length ≠ 0 then
      vsAddDocuments docsToIndex uids >>= fun _ =>
      M.pure docsToIndex.length
    else M.pure 0) >>= fun addedInc =>
  rmUpdate (hashedDocs.map (fun h => h.uid)) (some sourceIds) indexStartDt >>= fun _ =>
  (if isIncremental then
      liftEx (checkSourceIds2 sourceIds) >>= fun _ =>
      rmListKeys (some (sourceIds.filterMap id)) (some indexStartDt) none >>= fun uidsToDelete =>
      (if uidsToDelete.length ≠ 0 then
          vsDelete uidsToDelete >>= fun _ =>
          rmDeleteKeys uidsToDelete >>= fun _ =>
          M.pure uidsToDelete.length
        else M.pure 0)
    else M.pure 0) >>= fun deletedInc =>
  M.pure (addedInc, skippedInc, deletedInc)

/-- Truthiness of a JavaScript array value: every array object, the empty
array included, is truthy.  This embeds the implicit boolean coercion of the
while condition of lines 162 to 165 of _index.ts, whose tested value is the
string array resolved from listKeys. -/
def jsArrayTruthy (uids : List String) : Bool := true

/-- The final full-cleanup while loop of _index.ts lines 160 to 172,
indexed by fuel: a result of none means the loop has not exited within fuel
iterations.  Each iteration lists up to cleanupBatchSize stale keys, and,
when the resolved array is truthy, deletes them from the vector store and
then from the record store and loops; the loop would only exit on a falsy
resolved value. -/
def fullSweep (cleanupBatchSize : Option Nat) (indexStartDt : Nat) :
    Nat → Nat → M (Option Nat)
  | 0, _ => M.pure none
  | Nat.succ fuel, acc => do
      let uidsToDelete ← rmListKeys none (some indexStartDt) cleanupBatchSize
      if jsArrayTruthy uidsToDelete then do
        vsDelete uidsToDelete
        rmDeleteKeys uidsToDelete
        fullSweep cleanupBatchSize indexStartDt fuel (acc + uidsToDelete.length)
      else
        M.pure (some acc)

/-- The summary index resolves with (lines 174 to 178). -/
structure IndexResult where
  numAdded : Nat
  numSkipped : Nat
  numDeleted : Nat
deriving DecidableEq, Repr

/-- Lines 160 to 178 of _index.ts: run the full sweep when the cleanup value
is full, then build the summary; a summary of none means the run has not
terminated within the sweep fuel. -/
def finishCleanup (isFull : Bool) (cleanupBatchSize : Option Nat)
    (indexStartDt : Nat) (fuel : Nat) (counts : Nat × Nat × Nat) :
    M (Option IndexResult) := do
  if isFull then
    let swept ← fullSweep cleanupBatchSize indexStartDt fuel 0
    match swept with
    | none => M.pure none
    | some del =>
        M.pure (some { numAdded := counts.1, numSkipped := counts.2.1,
                       numDeleted := counts.2.2 + del })
  else
    M.pure (some { numAdded := counts.1, numSkipped := counts.2.1,
                   numDeleted := counts.2.2 })

/-- One step of the batch fold of index: run the batch body and accumulate
its increments into the running (numAdded, numSkipped, numDeleted). -/
def stepBatches (isIncremental : Bool) (forceUpdate : Option Bool)
    (assigner : _HashedDocument → Option String) (indexStartDt : Nat)
    (acc : Nat × Nat × Nat) (docBatch : List Doc) : M (Nat × Nat × Nat) := do
  let incs ← processBatch isIncremental forceUpdate assigner indexStartDt docBatch
  M.pure (acc.1 + incs.1, acc.2.1 + incs.2.1, acc.2.2 + incs.2.2)

/-- The exported async function index of _index.ts, over the runtime options
object and a fuel bound for the final cleanup loop (a resolved summary of
none means that loop had not exited within fuel iterations; every other
control path of the source is fuel independent).  The two comparisons of the
immutable cleanup value with the literals incremental and full are computed
once up front. -/
def index (fuel : Nat) (options : IndexOptions) (docsSource : DocsSource) :
    M (Option IndexResult) :=
  let merged := mergeDefaults options
  let isIncremental := merged.cleanup == some "incremental"
  let isFull := merged.cleanup == some "full"
  if isIncremental && SourceIdKey.jsFalsy options.sourceIdKey then
    throwM "Source id key is required when cleanup mode is incremental."
  else do
    let docs ← liftEx (loadDocs docsSource)
    let assigner := _getSourceIdAssigner options.sourceIdKey
    let indexStartDt ← rmGetTime
    let counts ← List.foldlM
      (stepBatches isIncremental merged.forceUpdate assigner indexStartDt)
      ((0, 0, 0) : Nat × Nat × Nat)
      (_batch merged.batchSize docs)
    finishCleanup isFull merged.cleanupBatchSize indexStartDt fuel counts

/-- Running a bind: the source computation runs first and an error aborts
the continuation. -/
theorem M.run_bind (x : M α) (f : α → M β) (s : StoreState) :
    (x >>= f) s =
      match x s with
      | (Except.ok a, s1) => f a s1
      | (Except.error e, s1) => (Except.error e, s1) := rfl

/-- Running a pure value changes nothing. -/
theorem M.run_pure (a : α) (s : StoreState) : (Pure.pure a : M α) s = (Except.ok a, s) := rfl

/-- Destructing a successful bind. -/
theorem M.bind_eq_ok {x : M α} {f : α → M β} {s s2 : StoreState} {b : β}
    (h : (x >>= f) s = (Except.ok b, s2)) :
    ∃ a s1, x s = (Except.ok a, s1) ∧ f a s1 = (Except.ok b, s2) := by
  rw [M.run_bind] at h
  rcases hx : x s with ⟨r, s1⟩
  rw [hx] at h
  cases r with
  | ok a => exact ⟨a, s1, rfl, h⟩
  | error e => simp at h

theorem recordEvent_failAt (s : StoreState) (ev : Event) :
    (recordEvent s ev).failAt = s.failAt := rfl

theorem rmGetTime_apply (s : StoreState) (h : s.failAt = none) :
    rmGetTime s =
      (Except.ok s.now,
       { s with trace := s.trace ++ [Event.rmGetTime], callIdx := s.callIdx + 1 }) := by
  simp [rmGetTime, stepCall, recordEvent, h]

theorem rmExists_apply (uids : List String) (s : StoreState) (h : s.failAt = none) :
    rmExists uids s =
      (Except.ok (uids.map (fun u => s.ledger.any (fun r => r.key == u))),
       { s with trace := s.trace ++ [Event.rmExists uids], callIdx := s.callIdx + 1 }) := by
  simp [rmExists, stepCall, recordEvent, h]

theorem rmUpdate_apply (uids : List String) (groupIds : Option (List (Option String)))
    (t : Nat) (s : StoreState) (h : s.failAt = none) :
    rmUpdate uids groupIds t s =
      (Except.ok (),
       { s with trace := s.trace ++ [Event.rmUpdate uids groupIds t],
                callIdx := s.callIdx + 1,
                ledger := ledgerUpdateMany t s.ledger uids groupIds }) := by
  simp [rmUpdate, stepCall, recordEvent, h]

theorem rmListKeys_apply (groupIds : Option (List String)) (before limit : Option Nat)
    (s : StoreState) (h : s.failAt = none) :
    rmListKeys groupIds before limit s =
      (Except.ok (listKeysPure groupIds before limit s.ledger),
       { s with trace := s.trace ++ [Event.rmListKeys groupIds before limit],
                callIdx := s.callIdx + 1 }) := by
  simp [rmListKeys, stepCall, recordEvent, h]

theorem rmDeleteKeys_apply (uids : List String) (s : StoreState) (h : s.failAt = none) :
    rmDeleteKeys uids s =
      (Except.ok (),
       { s with trace := s.trace ++ [Event.rmDeleteKeys uids],
                callIdx := s.callIdx + 1,
                ledger := ledgerDelete s.ledger uids }) := by
  simp [rmDeleteKeys, stepCall, recordEvent, h]

theorem vsAddDocuments_apply (docs : List Doc) (ids : List String) (s : StoreState)
    (h : s.failAt = none) :
    vsAddDocuments docs ids s =
      (Except.ok (),
       { s with trace := s.trace ++ [Event.vsAddDocuments docs ids],
                callIdx := s.callIdx + 1,
                vectors := vectorsAdd s.vectors ids docs }) := by
  simp [vsAddDocuments, stepCall, recordEvent, h]

theorem vsDelete_apply (ids : List String) (s : StoreState) (h : s.failAt = none) :
    vsDelete ids s =
      (Except.ok (),
       { s with trace := s.trace ++ [Event.vsDelete ids], callIdx := s.callIdx + 1,
                vectors := vectorsDelete s.vectors ids }) := by
  simp [vsDelete, stepCall, recordEvent, h]

/-- Under a failure-free schedule the full-cleanup while loop of lines 160
to 172 exhausts any fuel bound without ever exiting: the resolved key array
is truthy even when empty, so the loop condition never becomes false. -/
theorem fullSweep_failAt_none (cbs : Option Nat) (t : Nat) :
    ∀ (fuel acc : Nat) (s : StoreState), s.failAt = none →
      (fullSweep cbs t fuel acc s).1 = Except.ok none := by
  intro fuel
  induction fuel with
  | zero => intro acc s _; rfl
  | succ n ih =>
      intro acc s h
      simp only [fullSweep, M.run_bind, rmListKeys_apply, vsDelete_apply,
        rmDeleteKeys_apply, h, jsArrayTruthy, if_true]
      exact ih _ _ rfl

/-- Whatever the failure schedule, the full-cleanup while loop never
resolves with a key count: it either errors on a store call or runs out of
fuel still looping. -/
theorem fullSweep_never_some (cbs : Option Nat) (t : Nat) :
    ∀ (fuel acc del : Nat) (s : StoreState),
      (fullSweep cbs t fuel acc s).1 ≠ Except.ok (some del) := by
  intro fuel
  induction fuel with
  | zero => intro acc del s hcontra; simp [fullSweep, M.pure] at hcontra
  | succ n ih =>
      intro acc del s hcontra
      rw [show fullSweep cbs t (Nat.succ n) acc s =
        (rmListKeys none (some t) cbs >>= fun uidsToDelete =>
          if jsArrayTruthy uidsToDelete then
            vsDelete uidsToDelete >>= fun _ =>
            rmDeleteKeys uidsToDelete >>= fun _ =>
            fullSweep cbs t n (acc + uidsToDelete.length)
          else M.pure (some acc)) s from rfl, M.run_bind] at hcontra
      rcases h1 : rmListKeys none (some t) cbs s with ⟨r1, s1⟩
      rw [h1] at hcontra
      cases r1 with
      | error e => simp at hcontra
      | ok keys =>
          simp only [jsArrayTruthy, if_true, M.run_bind] at hcontra
          rcases h2 : vsDelete keys s1 with ⟨r2, s2⟩
          rw [h2] at hcontra
          cases r2 with
          | error e => simp at hcontra
          | ok u =>
              dsimp only at hcontra
              rcases h3 : rmDeleteKeys keys s2 with ⟨r3, s3⟩
              rw [h3] at hcontra
              cases r3 with
              | error e => simp at hcontra
              | ok u2 =>
                  dsimp only at hcontra
                  exact ih _ _ _ hcontra

/-- From a successful bind, recover the intermediate result and state. -/
theorem M.fst_bind_ok {x : M α} {f : α → M β} {s : StoreState} {b : β}
    (h : ((x >>= f) s).1 = Except.ok b) :
    ∃ a s1, x s = (Except.ok a, s1) ∧ (f a s1).1 = Except.ok b := by
  rw [M.run_bind] at h
  rcases hx : x s with ⟨r, s1⟩
  rw [hx] at h
  cases r with
  | ok a => exact ⟨a, s1, rfl, h⟩
  | error e => simp at h

/-- With cleanup full and no injected failure, finishing a run resolves with
none for every fuel bound: the final sweep never exits. -/
theorem finishCleanup_full_failAt_none (cbs : Option Nat) (t fuel : Nat)
    (counts : Nat × Nat × Nat) (s : StoreState) (h : s.failAt = none) :
    (finishCleanup true cbs t fuel counts s).1 = Except.ok none := by
  have h1 := fullSweep_failAt_none cbs t fuel 0 s h
  rcases hs : fullSweep cbs t fuel 0 s with ⟨r, s1⟩
  rw [hs] at h1
  simp only [finishCleanup, if_true, M.run_bind, hs]
  simp only at h1
  rw [h1]
  rfl

/-- With cleanup full, finishing a run never resolves with a summary,
whatever the failure schedule: the final sweep either errors or loops. -/
theorem finishCleanup_full_no_summary (cbs : Option Nat) (t fuel : Nat)
    (counts : Nat × Nat × Nat) (s : StoreState) (res : IndexResult)
    (h : (finishCleanup true cbs t fuel counts s).1 = Except.ok (some res)) : False := by
  simp only [finishCleanup, if_true] at h
  obtain ⟨swept, s1, hs, hk⟩ := M.fst_bind_ok h
  cases swept with
  | none => simp [M.pure] at hk
  | some del =>
      have := fullSweep_never_some cbs t fuel 0 del s
      rw [hs] at this
      exact this rfl

/-- A run whose merged cleanup value is full never resolves with a summary:
whatever the documents, the stores and the failure schedule, index either
errors or is still inside the final cleanup loop when any fuel bound runs
out. -/
theorem index_full_no_summary (fuel : Nat) (opts : IndexOptions) (src : DocsSource)
    (st : StoreState) (res : IndexResult)
    (hfull : (mergeDefaults opts).cleanup = some "full")
    (h : (index fuel opts src st).1 = Except.ok (some res)) : False := by
  have hb1 : ((some "full" : Option String) == some "incremental") = false := rfl
  have hb2 : ((some "full" : Option String) == some "full") = true := rfl
  simp only [index, hfull, hb1, hb2, Bool.false_and, Bool.false_eq_true,
    if_false] at h
  obtain ⟨docs, s1, _, h2⟩ := M.fst_bind_ok h
  obtain ⟨t, s2, _, h3⟩ := M.fst_bind_ok h2
  obtain ⟨counts, s3, _, h4⟩ := M.fst_bind_ok h3
  exact finishCleanup_full_no_summary _ _ _ _ _ _ h4

/-- The concrete document used in the run scenarios below. -/
def dDoc : Doc := { pageContent := "hello", metadata := [("source", "s1")] }

/-- Its fingerprint under specHash. -/
def dUid : String := "hello|#|source|=|s1"

/-- A ledger holding n stale records: last_seen 0, strictly before the
reference timestamp 1 that the scenario states hand out as store time. -/
def staleLedger (n : Nat) : List LedgerRec :=
  (List.range n).map (fun i => { key := toString i, groupId := some "g1", updatedAt := 0 })

/-- C1 scenario: 2500 stale ledger entries, no incoming documents, cleanup
full, cleanupBatchSize left to its default 1000, no injected store failure. -/
def c1State : StoreState :=
  { ledger := staleLedger 2500, vectors := [], now := 1, trace := [], callIdx := 0,
    failAt := none }

def c1Options : IndexOptions :=
  { sourceIdKey := SourceIdKey.field "source", cleanup := some "full" }

set_option maxRecDepth 8192

/-- C1: the claim says that with cleanup full the final sweep repeatedly
lists and deletes stale uids and terminates exactly when the store reports
none remaining, and that with 2500 stale entries and delete batch size 1000
it performs three rounds and reports 2500 deleted.  The code instead tests
the truthiness of the resolved key array (lines 162 to 165 of _index.ts),
and an array is truthy even when empty, so the sweep never exits: for every
fuel bound the run on this scenario is still looping (resolves none), and
no summary with a deleted count is ever produced. -/
theorem C1_full_sweep_never_exits (fuel : Nat) :
    (index fuel c1Options (DocsSource.arr []) c1State).1 = Except.ok none := by
  have h : index fuel c1Options (DocsSource.arr []) c1State =
      finishCleanup true (some 1000) 1 fuel (0, 0, 0)
        { ledger := staleLedger 2500, vectors := [], now := 1,
          trace := [Event.rmGetTime], callIdx := 1, failAt := none } := rfl
  rw [h]
  exact finishCleanup_full_failAt_none _ _ _ _ _ rfl

/-- C2 scenario: one document whose uid is already in the ledger, cleanup
absent, forceUpdate defaulted to false, and the third store call of the run
(the ledger-refresh update for the unchanged document, line 112 of
_index.ts) scheduled to fail. -/
def c2State : StoreState :=
  { ledger := [{ key := dUid, groupId := some "s1", updatedAt := 0 }],
    vectors := [(dUid, dDoc)],
    now := 1, trace := [], callIdx := 0, failAt := some 3 }

def c2Options : IndexOptions := { sourceIdKey := SourceIdKey.field "source" }

/-- C2: the claim says every record-store or vector-store error propagates
and aborts the run, in particular an error from the ledger-refresh update
for skipped documents.  The refresh update of line 112 is issued without
await, so its failure is never observed: on this scenario the third store
call is exactly that refresh update (second conjunct), it fails, and the
run still resolves successfully with numSkipped 1 (first conjunct).  By
contrast the same run with the failure moved to the fourth call (the
awaited ledger update of line 126) aborts with the store error (third
conjunct): only the un-awaited call's error is swallowed. -/
theorem C2_unawaited_refresh_error_swallowed :
    (index 0 c2Options (DocsSource.arr [dDoc]) c2State).1
        = Except.ok (some { numAdded := 0, numSkipped := 1, numDeleted := 0 })
    ∧ ((index 0 c2Options (DocsSource.arr [dDoc]) c2State).2.trace)[2]?
        = some (Event.rmUpdate [dUid] none 1)
    ∧ (index 0 c2Options (DocsSource.arr [dDoc]) { c2State with failAt := some 4 }).1
        = Except.error "store call failed" :=
  ⟨rfl, rfl, rfl⟩

/-- C3 scenario: a single fresh document into empty stores under cleanup
full, no injected failure. -/
def c3State : StoreState :=
  { ledger := [], vectors := [], now := 1, trace := [], callIdx := 0, failAt := none }

def c3Options : IndexOptions :=
  { sourceIdKey := SourceIdKey.field "source", cleanup := some "full" }

/-- C3: the claim says running index twice over the same unchanged document
set with cleanup full terminates both times, with numAdded N then
numSkipped N.  The first run already never returns: the batch phase adds
the document (the run reaches the final cleanup with counts (1, 0, 0)), but
the full sweep loops on the truthy empty key array for every fuel bound, so
the first run never terminates and the second run is never reached. -/
theorem C3_first_full_run_never_returns (fuel : Nat) :
    (index fuel c3Options (DocsSource.arr [dDoc]) c3State).1 = Except.ok none := by
  have h : index fuel c3Options (DocsSource.arr [dDoc]) c3State =
      finishCleanup true (some 1000) 1 fuel (1, 0, 0)
        { ledger := [{ key := dUid, groupId := some "s1", updatedAt := 1 }],
          vectors := [(dUid, dDoc)],
          now := 1,
          trace := [Event.rmGetTime, Event.rmExists [dUid],
            Event.vsAddDocuments [dDoc] [dUid],
            Event.rmUpdate [dUid] (some [some "s1"]) 1],
          callIdx := 4, failAt := none } := rfl
  rw [h]
  exact finishCleanup_full_failAt_none _ _ _ _ _ rfl

/-- Walking the batch and the null check of lines 79 to 87: when some
document of the list resolved to a null source id, the check throws. -/
theorem checkSourceIds_error (assigner : _HashedDocument → Option String) :
    ∀ (hs : List _HashedDocument), (∃ h ∈ hs, assigner h = none) →
      ∃ e, checkSourceIds hs (hs.map assigner) = Except.error e := by
  intro hs
  induction hs with
  | nil => rintro ⟨h, hmem, _⟩; cases hmem
  | cons h rest ih =>
      rintro ⟨h2, hmem, hnone⟩
      by_cases hh : assigner h = none
      · refine ⟨"Source ids are required when cleanup mode is incremental.\nDocument that starts with content: "
          ++ h.pageContent.take 100 ++ " was not assigned as source id.", ?_⟩
        rw [List.map_cons]
        simp only [checkSourceIds]
        rw [if_pos hh]
      · have hm : h2 ∈ rest := by
          rcases List.mem_cons.mp hmem with heq | hm
          · exact absurd (heq ▸ hnone) hh
          · exact hm
        obtain ⟨e, he⟩ := ih ⟨h2, hm, hnone⟩
        refine ⟨e, ?_⟩
        rw [List.map_cons]
        simp only [checkSourceIds]
        rw [if_neg hh]
        exact he

/-- Under incremental cleanup, a batch containing a document whose source id
resolves to null aborts with the state exactly as it was: the throw of line
83 happens before the existence check, the ledger updates, the vector
writes and the deletions of the batch, so none of them is issued. -/
theorem processBatch_null_aborts (force : Option Bool)
    (assigner : _HashedDocument → Option String) (t : Nat) (batch : List Doc)
    (s : StoreState)
    (hex : ∃ h ∈ _deduplicateInOrder (batch.map _HashedDocument.fromDocument),
      assigner h = none) :
    ∃ e, processBatch true force assigner t batch s = (Except.error e, s) := by
  obtain ⟨e, he⟩ := checkSourceIds_error assigner _ hex
  refine ⟨e, ?_⟩
  simp only [processBatch, if_true, M.run_bind, liftEx, he]

/-- A whole run under incremental cleanup on a document with a null source
id errors, and its final state extends the initial one by the reference
timestamp fetch alone: no store write was issued. -/
theorem index_null_aborts (key : SourceIdKey) (d : Doc) (st : StoreState) (fuel : Nat)
    (hfail : st.failAt = none) (hfalsy : key.jsFalsy = false)
    (hnull : _getSourceIdAssigner key (_HashedDocument.fromDocument d) = none) :
    ∃ e, index fuel { sourceIdKey := key, cleanup := some "incremental" }
        (DocsSource.arr [d]) st
      = (Except.error e,
         { st with trace := st.trace ++ [Event.rmGetTime], callIdx := st.callIdx + 1 }) := by
  have hex : ∃ h ∈ _deduplicateInOrder ([d].map _HashedDocument.fromDocument),
      _getSourceIdAssigner key h = none := by
    refine ⟨_HashedDocument.fromDocument d, ?_, hnull⟩
    simp [_deduplicateInOrder, deduplicateGo]
  obtain ⟨e, he⟩ := processBatch_null_aborts (some false) (_getSourceIdAssigner key) st.now [d]
    { ledger := st.ledger, vectors := st.vectors, now := st.now,
      trace := st.trace ++ [Event.rmGetTime], callIdx := st.callIdx + 1, failAt := none } hex
  refine ⟨e, ?_⟩
  have hb : ((some "incremental" : Option String) == some "incremental") = true := rfl
  have hbatch : _batch (some 100) [d] = [[d]] := rfl
  simp only [index, mergeDefaults, DEFAULTS, hb, hfalsy, Bool.true_and, Bool.false_eq_true,
    if_false, M.run_bind, liftEx, loadDocs, rmGetTime_apply, hfail, hbatch,
    List.foldlM_cons, List.foldlM_nil, stepBatches, he]

/-- C4: under incremental cleanup, a document resolving to a null group id
makes the run abort with a configuration error before any record-store or
vector-store interaction for that batch.  First conjunct: for every batch
containing such a document and every store state, the batch body errors and
returns the state exactly unchanged (no existence check, ledger update,
vector write or deletion is issued, since the trace is part of the state).
Second conjunct: a run of index over such a document errors, and its final
state extends the initial one by the get_time event alone. -/
theorem C4_incremental_null_group_aborts :
    (∀ (force : Option Bool) (assigner : _HashedDocument → Option String)
        (t : Nat) (batch : List Doc) (s : StoreState),
      (∃ h ∈ _deduplicateInOrder (batch.map _HashedDocument.fromDocument),
        assigner h = none) →
      ∃ e, processBatch true force assigner t batch s = (Except.error e, s))
    ∧ (∀ (key : SourceIdKey) (d : Doc) (st : StoreState) (fuel : Nat),
      st.failAt = none → key.jsFalsy = false →
      _getSourceIdAssigner key (_HashedDocument.fromDocument d) = none →
      ∃ e, index fuel { sourceIdKey := key, cleanup := some "incremental" }
          (DocsSource.arr [d]) st
        = (Except.error e,
           { st with trace := st.trace ++ [Event.rmGetTime], callIdx := st.callIdx + 1 })) :=
  ⟨processBatch_null_aborts, index_null_aborts⟩

/-- A document carrying no source metadata: its group id resolves to null
under the field rule. -/
def c4Doc : Doc := { pageContent := "nosource", metadata := [] }

/-- C4 witness state: empty stores, no injected failure. -/
def c4State : StoreState :=
  { ledger := [], vectors := [], now := 1, trace := [], callIdx := 0, failAt := none }

/-- C4 applied to the concrete no-source document. -/
theorem C4_incremental_null_group_aborts_witness :
    (∃ e, processBatch true (some false)
        (_getSourceIdAssigner (SourceIdKey.field "source")) 1 [c4Doc] c4State
      = (Except.error e, c4State))
    ∧ (∃ e, index 0 { sourceIdKey := SourceIdKey.field "source", cleanup := some "incremental" }
          (DocsSource.arr [c4Doc]) c4State
        = (Except.error e,
           { c4State with trace := c4State.trace ++ [Event.rmGetTime],
                          callIdx := c4State.callIdx + 1 })) :=
  ⟨C4_incremental_null_group_aborts.1 (some false)
      (_getSourceIdAssigner (SourceIdKey.field "source")) 1 [c4Doc] c4State (by decide),
   C4_incremental_null_group_aborts.2 (SourceIdKey.field "source") c4Doc c4State 0
      rfl rfl rfl⟩

/-- C8 scenario: empty stores and an options object whose cleanup value is
the invalid string bogus. -/
def c8State : StoreState :=
  { ledger := [], vectors := [], now := 1, trace := [], callIdx := 0, failAt := none }

def c8Options : IndexOptions :=
  { sourceIdKey := SourceIdKey.field "source", cleanup := some "bogus" }

/-- C8 counterexample: the claim says an invalid cleanup mode value raises a
configuration error before any store mutation.  Running index with cleanup
bogus raises no error at all: the run completes with a summary, and the
final state shows the vector write and ledger update were performed. -/
theorem C8_invalid_cleanup_not_rejected :
    index 0 c8Options (DocsSource.arr [dDoc]) c8State
      = (Except.ok (some { numAdded := 1, numSkipped := 0, numDeleted := 0 }),
         { ledger := [{ key := dUid, groupId := some "s1", updatedAt := 1 }],
           vectors := [(dUid, dDoc)], now := 1,
           trace := [Event.rmGetTime, Event.rmExists [dUid],
             Event.vsAddDocuments [dDoc] [dUid],
             Event.rmUpdate [dUid] (some [some "s1"]) 1],
           callIdx := 4, failAt := none }) := rfl

/-- C8 amended: no runtime validation of the cleanup mode value exists; any
value other than the strings incremental and full is treated exactly like an
absent cleanup option (mode none): the run performs no deletion and raises
no configuration error, behaving identically to a run with cleanup absent.
(The TypeScript annotation excludes such values only statically.) -/
theorem C8_invalid_cleanup_behaves_as_none (s : String) (hs1 : s ≠ "incremental")
    (hs2 : s ≠ "full") (fuel : Nat) (o : IndexOptions) (src : DocsSource)
    (st : StoreState) :
    index fuel { o with cleanup := some s } src st =
    index fuel { o with cleanup := none } src st := by
  have h1 : ((some s : Option String) == some "incremental") = false := by
    simp only [beq_eq_false_iff_ne, ne_eq, Option.some.injEq]; exact hs1
  have h2 : ((some s : Option String) == some "full") = false := by
    simp only [beq_eq_false_iff_ne, ne_eq, Option.some.injEq]; exact hs2
  have h3 : ((none : Option String) == some "incremental") = false := rfl
  have h4 : ((none : Option String) == some "full") = false := rfl
  simp only [index, mergeDefaults, h1, h2, h3, h4]

/-- C8 amended claim applied to the concrete value bogus. -/
theorem C8_invalid_cleanup_behaves_as_none_witness :
    index 0 { c8Options with cleanup := some "bogus" } (DocsSource.arr [dDoc]) c8State =
    index 0 { c8Options with cleanup := none } (DocsSource.arr [dDoc]) c8State :=
  C8_invalid_cleanup_behaves_as_none "bogus" (by decide) (by decide) 0 c8Options
    (DocsSource.arr [dDoc]) c8State

/-- C6: with forceUpdate true, a single-document run over a document whose
uid already exists in the record store writes the document to the vector
store and counts it as added (summary (1, 0, 0): numAdded 1, numSkipped 0),
and the ledger entry is still refreshed: the final state shows, in order,
the reference timestamp fetch, the existence check, the vector store write
of the document under its uid, and the awaited ledger update of that uid
with last_seen floored at the run timestamp (ledgerUpdateMany bumps
last_seen to at least st.now and never backward). -/
theorem C6_force_update_rewrites (d : Doc) (key : SourceIdKey) (st : StoreState)
    (hfail : st.failAt = none)
    (hex : st.ledger.any (fun r => r.key == (_HashedDocument.fromDocument d).uid) = true) :
    index 0 { sourceIdKey := key, forceUpdate := some (some true) } (DocsSource.arr [d]) st
      = (Except.ok (some { numAdded := 1, numSkipped := 0, numDeleted := 0 }),
         { st with
            trace := st.trace ++ [Event.rmGetTime,
              Event.rmExists [(_HashedDocument.fromDocument d).uid],
              Event.vsAddDocuments [(_HashedDocument.fromDocument d).toDocument]
                [(_HashedDocument.fromDocument d).uid],
              Event.rmUpdate [(_HashedDocument.fromDocument d).uid]
                (some [_getSourceIdAssigner key (_HashedDocument.fromDocument d)]) st.now],
            callIdx := st.callIdx + 4,
            ledger := ledgerUpdateMany st.now st.ledger [(_HashedDocument.fromDocument d).uid]
              (some [_getSourceIdAssigner key (_HashedDocument.fromDocument d)]),
            vectors := vectorsAdd st.vectors [(_HashedDocument.fromDocument d).uid]
              [(_HashedDocument.fromDocument d).toDocument] }) := by
  have hb1 : ((none : Option String) == some "incremental") = false := rfl
  have hb2 : ((none : Option String) == some "full") = false := rfl
  have hbatch : _batch (some 100) [d] = [[d]] := rfl
  simp only [index, mergeDefaults, DEFAULTS, hb1, hb2, Bool.false_and, Bool.false_eq_true,
    if_false, M.run_bind, liftEx, loadDocs, rmGetTime_apply, hfail, hbatch,
    List.foldlM_cons, List.foldlM_nil, stepBatches, processBatch, _deduplicateInOrder, deduplicateGo,
    List.map_cons, List.map_nil, List.not_mem_nil, ite_false, ite_true,
    rmExists_apply, hex, List.zip_cons_cons, List.zip_nil_right, partitionBatch,
    jsTruthyOptBool, Bool.not_true, Bool.and_false, List.length_nil, List.length_cons,
    vsAddDocuments_apply, rmUpdate_apply, finishCleanup, M.run_pure, M.pure]
  simp [M.run_bind, M.pure, vsAddDocuments_apply, rmUpdate_apply, List.append_assoc]

/-- C6 witness state: the document's uid is already in the ledger (stale
entry from a previous run) and its vector is present. -/
def c6State : StoreState :=
  { ledger := [{ key := dUid, groupId := some "s1", updatedAt := 0 }],
    vectors := [(dUid, dDoc)],
    now := 1, trace := [], callIdx := 0, failAt := none }

/-- C6 applied to the concrete already-indexed document. -/
theorem C6_force_update_rewrites_witness :
    index 0 { sourceIdKey := SourceIdKey.field "source", forceUpdate := some (some true) }
        (DocsSource.arr [dDoc]) c6State
      = (Except.ok (some { numAdded := 1, numSkipped := 0, numDeleted := 0 }),
         { c6State with
            trace := c6State.trace ++ [Event.rmGetTime,
              Event.rmExists [(_HashedDocument.fromDocument dDoc).uid],
              Event.vsAddDocuments [(_HashedDocument.fromDocument dDoc).toDocument]
                [(_HashedDocument.fromDocument dDoc).uid],
              Event.rmUpdate [(_HashedDocument.fromDocument dDoc).uid]
                (some [_getSourceIdAssigner (SourceIdKey.field "source")
                  (_HashedDocument.fromDocument dDoc)]) c6State.now],
            callIdx := c6State.callIdx + 4,
            ledger := ledgerUpdateMany c6State.now c6State.ledger
              [(_HashedDocument.fromDocument dDoc).uid]
              (some [_getSourceIdAssigner (SourceIdKey.field "source")
                (_HashedDocument.fromDocument dDoc)]),
            vectors := vectorsAdd c6State.vectors [(_HashedDocument.fromDocument dDoc).uid]
              [(_HashedDocument.fromDocument dDoc).toDocument] }) :=
  C6_force_update_rewrites dDoc (SourceIdKey.field "source") c6State rfl rfl

/-- C9: the documented defaults (batchSize 100, cleanupBatchSize 1000,
forceUpdate false) survive the spread merge of line 45 only when the
corresponding key is absent from the options object; an options object
carrying the key explicitly set to undefined yields undefined for that
option (not the documented default), because spreading copies the key with
its undefined value over the default. -/
theorem C9_defaults_only_when_key_absent (o : IndexOptions) :
    ((o.batchSize = none → (mergeDefaults o).batchSize = some DEFAULTS.batchSize)
      ∧ (o.batchSize = some none → (mergeDefaults o).batchSize = none))
    ∧ ((o.cleanupBatchSize = none →
          (mergeDefaults o).cleanupBatchSize = some DEFAULTS.cleanupBatchSize)
      ∧ (o.cleanupBatchSize = some none → (mergeDefaults o).cleanupBatchSize = none))
    ∧ ((o.forceUpdate = none → (mergeDefaults o).forceUpdate = some DEFAULTS.forceUpdate)
      ∧ (o.forceUpdate = some none → (mergeDefaults o).forceUpdate = none)) := by
  refine ⟨⟨?_, ?_⟩, ⟨?_, ?_⟩, ⟨?_, ?_⟩⟩ <;> intro h <;> simp [mergeDefaults, h]

/-- An options object with all three defaulted keys present but undefined. -/
def c9Explicit : IndexOptions :=
  { sourceIdKey := SourceIdKey.field "source", batchSize := some none,
    cleanupBatchSize := some none, forceUpdate := some none }

/-- An options object with all three defaulted keys absent. -/
def c9Absent : IndexOptions := { sourceIdKey := SourceIdKey.field "source" }

/-- C9 applied to the concrete options objects: explicit undefined beats the
default, absence restores it. -/
theorem C9_defaults_only_when_key_absent_witness :
    (mergeDefaults c9Explicit).batchSize = none
    ∧ (mergeDefaults c9Explicit).cleanupBatchSize = none
    ∧ (mergeDefaults c9Explicit).forceUpdate = none
    ∧ (mergeDefaults c9Absent).batchSize = some DEFAULTS.batchSize
    ∧ (mergeDefaults c9Absent).cleanupBatchSize = some DEFAULTS.cleanupBatchSize
    ∧ (mergeDefaults c9Absent).forceUpdate = some DEFAULTS.forceUpdate :=
  ⟨(C9_defaults_only_when_key_absent c9Explicit).1.2 rfl,
   (C9_defaults_only_when_key_absent c9Explicit).2.1.2 rfl,
   (C9_defaults_only_when_key_absent c9Explicit).2.2.2 rfl,
   (C9_defaults_only_when_key_absent c9Absent).1.1 rfl,
   (C9_defaults_only_when_key_absent c9Absent).2.1.1 rfl,
   (C9_defaults_only_when_key_absent c9Absent).2.2.1 rfl⟩

/-- The deduplicator only drops elements: its output is a sublist of its
input, so surviving order is input order. -/
theorem deduplicateGo_sublist (l : List _HashedDocument) :
    ∀ seen, (deduplicateGo seen l).Sublist l := by
  induction l with
  | nil => intro seen; simp [deduplicateGo]
  | cons h rest ih =>
      intro seen
      simp only [deduplicateGo]
      by_cases hm : h.uid ∈ seen
      · rw [if_pos hm]; exact (ih seen).cons h
      · rw [if_neg hm]; exact (ih (h.uid :: seen)).cons₂ h

/-- No survivor carries a uid that was already in the seen set. -/
theorem deduplicateGo_uid_not_seen (l : List _HashedDocument) :
    ∀ seen h2, h2 ∈ deduplicateGo seen l → h2.uid ∉ seen := by
  induction l with
  | nil => intro seen h2 hmem; simp [deduplicateGo] at hmem
  | cons h rest ih =>
      intro seen h2 hmem
      simp only [deduplicateGo] at hmem
      by_cases hm : h.uid ∈ seen
      · rw [if_pos hm] at hmem; exact ih seen h2 hmem
      · rw [if_neg hm] at hmem
        rcases List.mem_cons.mp hmem with heq | hmem2
        · rw [heq]; exact hm
        · intro hc
          exact ih (h.uid :: seen) h2 hmem2 (List.mem_cons_of_mem _ hc)

/-- Survivor uids are pairwise distinct: at most one survivor per uid. -/
theorem deduplicateGo_nodup (l : List _HashedDocument) :
    ∀ seen, ((deduplicateGo seen l).map (fun h => h.uid)).Nodup := by
  induction l with
  | nil => intro seen; simp [deduplicateGo]
  | cons h rest ih =>
      intro seen
      simp only [deduplicateGo]
      by_cases hm : h.uid ∈ seen
      · rw [if_pos hm]; exact ih seen
      · rw [if_neg hm]
        rw [List.map_cons, List.nodup_cons]
        constructor
        · intro hc
          rcases List.mem_map.mp hc with ⟨h2, hmem, huid⟩
          exact deduplicateGo_uid_not_seen rest (h.uid :: seen) h2 hmem
            (huid ▸ List.mem_cons_self _ _)
        · exact ih (h.uid :: seen)

/-- Every input uid not already seen is represented by some survivor. -/
theorem deduplicateGo_coverage (l : List _HashedDocument) :
    ∀ seen x, x ∈ l → x.uid ∉ seen → ∃ h2 ∈ deduplicateGo seen l, h2.uid = x.uid := by
  induction l with
  | nil => intro seen x hx; cases hx
  | cons h rest ih =>
      intro seen x hx hns
      simp only [deduplicateGo]
      by_cases hm : h.uid ∈ seen
      · rw [if_pos hm]
        rcases List.mem_cons.mp hx with heq | hx2
        · exact absurd (heq ▸ hm) hns
        · exact ih seen x hx2 hns
      · rw [if_neg hm]
        rcases List.mem_cons.mp hx with heq | hx2
        · exact ⟨h, List.mem_cons_self _ _, by rw [heq]⟩
        · by_cases hux : x.uid = h.uid
          · exact ⟨h, List.mem_cons_self _ _, hux.symm⟩
          · have hns2 : x.uid ∉ h.uid :: seen := by
              intro hc
              rcases List.mem_cons.mp hc with he | hs
              · exact hux he
              · exact hns hs
            obtain ⟨h2, hmem, huid⟩ := ih (h.uid :: seen) x hx2 hns2
            exact ⟨h2, List.mem_cons_of_mem _ hmem, huid⟩

/-- Each survivor is the first element of the input with its uid. -/
theorem deduplicateGo_first_occurrence (l : List _HashedDocument) :
    ∀ seen h2, h2 ∈ deduplicateGo seen l →
      l.find? (fun x => x.uid == h2.uid) = some h2 := by
  induction l with
  | nil => intro seen h2 hmem; simp [deduplicateGo] at hmem
  | cons h rest ih =>
      intro seen h2 hmem
      simp only [deduplicateGo] at hmem
      by_cases hm : h.uid ∈ seen
      · rw [if_pos hm] at hmem
        have hne : h.uid ≠ h2.uid := by
          intro he
          exact deduplicateGo_uid_not_seen rest seen h2 hmem (he ▸ hm)
        rw [List.find?_cons_of_neg _ (by simp [hne]), ih seen h2 hmem]
      · rw [if_neg hm] at hmem
        rcases List.mem_cons.mp hmem with heq | hmem2
        · rw [heq, List.find?_cons_of_pos _ (by simp)]
        · have hne : h.uid ≠ h2.uid := by
            intro he
            exact deduplicateGo_uid_not_seen rest (h.uid :: seen) h2 hmem2
              (he ▸ List.mem_cons_self _ _)
          rw [List.find?_cons_of_neg _ (by simp [hne]), ih (h.uid :: seen) h2 hmem2]

/-- A second concrete document with a distinct uid. -/
def d2Doc : Doc := { pageContent := "world", metadata := [("source", "s2")] }

/-- Its fingerprint under specHash. -/
def d2Uid : String := "world|#|source|=|s2"

/-- C7 scenario state: empty stores, no injected failure. -/
def c7State : StoreState :=
  { ledger := [], vectors := [], now := 1, trace := [], callIdx := 0, failAt := none }

/-- C7: within a batch the deduplicator keeps exactly the first occurrence
of each uid in input order.  Conjuncts: (1) the surviving sequence is a
sublist of the input, so its order matches input order; (2) surviving uids
are pairwise distinct, so at most one vector-store write happens per uid per
batch; (3) every input uid survives through some occurrence; (4) each
survivor is precisely the first input element bearing its uid; (5) on the
concrete batch carrying the same uid three times (positions 1, 3 and 4),
the run issues exactly one vector-store write, listing that document once,
at the first occurrence's position. -/
theorem C7_dedup_keeps_first_occurrence :
    (∀ l : List _HashedDocument, (_deduplicateInOrder l).Sublist l)
    ∧ (∀ l : List _HashedDocument, ((_deduplicateInOrder l).map (fun h => h.uid)).Nodup)
    ∧ (∀ (l : List _HashedDocument) (x : _HashedDocument), x ∈ l →
        ∃ h2 ∈ _deduplicateInOrder l, h2.uid = x.uid)
    ∧ (∀ (l : List _HashedDocument) (h2 : _HashedDocument), h2 ∈ _deduplicateInOrder l →
        l.find? (fun x => x.uid == h2.uid) = some h2)
    ∧ (index 0 { sourceIdKey := SourceIdKey.field "source" }
        (DocsSource.arr [dDoc, d2Doc, dDoc, dDoc]) c7State).2.trace
      = [Event.rmGetTime, Event.rmExists [dUid, d2Uid],
         Event.vsAddDocuments [dDoc, d2Doc] [dUid, d2Uid],
         Event.rmUpdate [dUid, d2Uid] (some [some "s1", some "s2"]) 1] :=
  ⟨fun l => deduplicateGo_sublist l [],
   fun l => deduplicateGo_nodup l [],
   fun l x hx => deduplicateGo_coverage l [] x hx (List.not_mem_nil _),
   fun l h2 hm => deduplicateGo_first_occurrence l [] h2 hm,
   rfl⟩

/-- C7 applied to a concrete triplicated batch: the duplicated document
survives once, and it is the first occurrence. -/
theorem C7_dedup_keeps_first_occurrence_witness :
    (∃ h2 ∈ _deduplicateInOrder [_HashedDocument.fromDocument dDoc,
        _HashedDocument.fromDocument d2Doc, _HashedDocument.fromDocument dDoc],
      h2.uid = (_HashedDocument.fromDocument dDoc).uid)
    ∧ [_HashedDocument.fromDocument dDoc, _HashedDocument.fromDocument d2Doc,
        _HashedDocument.fromDocument dDoc].find?
          (fun x => x.uid == (_HashedDocument.fromDocument dDoc).uid)
        = some (_HashedDocument.fromDocument dDoc) :=
  ⟨C7_dedup_keeps_first_occurrence.2.2.1
      [_HashedDocument.fromDocument dDoc, _HashedDocument.fromDocument d2Doc,
        _HashedDocument.fromDocument dDoc]
      (_HashedDocument.fromDocument dDoc) (by decide),
   C7_dedup_keeps_first_occurrence.2.2.2.1
      [_HashedDocument.fromDocument dDoc, _HashedDocument.fromDocument d2Doc,
        _HashedDocument.fromDocument dDoc]
      (_HashedDocument.fromDocument dDoc) (by decide)⟩

/-- A successful store call resolves with its effect's result on the
recorded state. -/
theorem stepCall_ok {α : Type} {ev : Event} {act : StoreState → α × StoreState}
    {s s2 : StoreState} {v : α}
    (h : stepCall ev act s = (Except.ok v, s2)) :
    v = (act (recordEvent s ev)).1 ∧ s2 = (act (recordEvent s ev)).2 := by
  unfold stepCall at h
  split at h
  · simp at h
  · rw [Prod.mk.injEq] at h
    exact ⟨(Except.ok.injEq _ _ ▸ h.1 : _).symm, h.2.symm⟩

/-- Destructing a resolved pure value. -/
theorem M.pure_eq_ok {α : Type} {a b : α} {s s2 : StoreState}
    (h : M.pure a s = (Except.ok b, s2)) : b = a ∧ s2 = s := by
  simp only [M.pure, Prod.mk.injEq, Except.ok.injEq] at h
  exact ⟨h.1.symm, h.2.symm⟩

/-- The partition of lines 95 to 108 is exhaustive: every deduplicated
document of the batch lands either in the write lists or in the refresh
list, and in exactly one of them. -/
theorem partitionBatch_lengths (force : Option Bool) :
    ∀ l : List (_HashedDocument × Bool),
      (partitionBatch force l).2.1.length + (partitionBatch force l).2.2.length
        = l.length := by
  intro l
  induction l with
  | nil => rfl
  | cons p rest ih =>
      simp only [partitionBatch]
      by_cases hc : (p.2 && !(jsTruthyOptBool force)) = true
      · rw [if_pos hc]
        simp only [List.length_cons]
        omega
      · rw [if_neg hc]
        simp only [List.length_cons]
        omega

/-- A batch body that resolves contributes exactly one count, added or
skipped, per surviving deduplicated document: addedInc + skippedInc equals
the deduplicated batch length. -/
theorem processBatch_counts {inc : Bool} {force : Option Bool}
    {assigner : _HashedDocument → Option String} {t : Nat} {b : List Doc}
    {s s2 : StoreState} {incs : Nat × Nat × Nat}
    (h : processBatch inc force assigner t b s = (Except.ok incs, s2)) :
    incs.1 + incs.2.1 = (_deduplicateInOrder (b.map _HashedDocument.fromDocument)).length := by
  simp only [processBatch] at h
  obtain ⟨u0, s0, _, h⟩ := M.bind_eq_ok h
  obtain ⟨exB, s1, hexists, h⟩ := M.bind_eq_ok h
  obtain ⟨skippedInc, sa, hskip, h⟩ := M.bind_eq_ok h
  obtain ⟨addedInc, sb, hadd, h⟩ := M.bind_eq_ok h
  obtain ⟨u4, sc, hupd, h⟩ := M.bind_eq_ok h
  obtain ⟨deletedInc, sd, hdel, h⟩ := M.bind_eq_ok h
  obtain ⟨hincs, _⟩ := M.pure_eq_ok h
  unfold rmExists at hexists
  obtain ⟨hexval, _⟩ := stepCall_ok hexists
  have hlen : exB.length =
      (_deduplicateInOrder (b.map _HashedDocument.fromDocument)).length := by
    rw [hexval]; simp
  have hskipeq : skippedInc =
      (partitionBatch force
        ((_deduplicateInOrder (b.map _HashedDocument.fromDocument)).zip exB)).2.2.length := by
    by_cases hc : (partitionBatch force
        ((_deduplicateInOrder (b.map _HashedDocument.fromDocument)).zip exB)).2.2.length ≠ 0
    · rw [if_pos hc] at hskip
      obtain ⟨uu, su, hff, hp⟩ := M.bind_eq_ok hskip
      exact (M.pure_eq_ok hp).1
    · rw [if_neg hc] at hskip
      rw [(M.pure_eq_ok hskip).1]
      omega
  have haddeq : addedInc =
      (partitionBatch force
        ((_deduplicateInOrder (b.map _HashedDocument.fromDocument)).zip exB)).2.1.length := by
    by_cases hc : (partitionBatch force
        ((_deduplicateInOrder (b.map _HashedDocument.fromDocument)).zip exB)).2.1.length ≠ 0
    · rw [if_pos hc] at hadd
      obtain ⟨uu, su, hvs, hp⟩ := M.bind_eq_ok hadd
      exact (M.pure_eq_ok hp).1
    · rw [if_neg hc] at hadd
      rw [(M.pure_eq_ok hadd).1]
      omega
  have hpart := partitionBatch_lengths force
    ((_deduplicateInOrder (b.map _HashedDocument.fromDocument)).zip exB)
  have hziplen : ((_deduplicateInOrder (b.map _HashedDocument.fromDocument)).zip exB).length
      = (_deduplicateInOrder (b.map _HashedDocument.fromDocument)).length := by
    rw [List.length_zip, hlen, Nat.min_self]
  rw [hincs]
  simp only
  omega

/-- Folding the batch loop accumulates exactly one added-or-skipped count
per deduplicated document of every batch. -/
theorem foldBatches_counts (inc : Bool) (force : Option Bool)
    (assigner : _HashedDocument → Option String) (t : Nat) :
    ∀ (batches : List (List Doc)) (acc counts : Nat × Nat × Nat) (s s2 : StoreState),
      (List.foldlM (stepBatches inc force assigner t) acc batches) s
          = (Except.ok counts, s2) →
      counts.1 + counts.2.1 = acc.1 + acc.2.1 +
        (batches.map
          (fun b => (_deduplicateInOrder (b.map _HashedDocument.fromDocument)).length)).sum := by
  intro batches
  induction batches with
  | nil =>
      intro acc counts s s2 h
      simp only [List.foldlM_nil] at h
      have h2 : M.pure acc s = (Except.ok counts, s2) := h
      obtain ⟨hc, _⟩ := M.pure_eq_ok h2
      rw [hc]; simp
  | cons b bs ih =>
      intro acc counts s s2 h
      simp only [List.foldlM_cons] at h
      obtain ⟨acc2, s1, hstep, h⟩ := M.bind_eq_ok h
      simp only [stepBatches] at hstep
      obtain ⟨incs, s1b, hpb, hstep⟩ := M.bind_eq_ok hstep
      obtain ⟨hacc2, _⟩ := M.pure_eq_ok hstep
      have hcnt := processBatch_counts hpb
      have hrec := ih acc2 counts s1 s2 h
      have h1 : acc2.1 = acc.1 + incs.1 := by rw [hacc2]
      have h2 : acc2.2.1 = acc.2.1 + incs.2.1 := by rw [hacc2]
      simp only [List.map_cons, List.sum_cons]
      omega

/-- C10: every run of index that resolves with a summary satisfies
numAdded + numSkipped = the sum, over the batches of the loaded documents,
of the number of documents surviving within-batch deduplication: each
surviving fingerprinted document is counted exactly once, under skipped
when its uid existed with force update falsy (the refresh list) and under
added otherwise (the write list), by the exhaustive partition of lines 95
to 108. -/
theorem C10_added_skipped_account (fuel : Nat) (opts : IndexOptions) (src : DocsSource)
    (docs : List Doc) (st st2 : StoreState) (res : IndexResult)
    (hload : loadDocs src = Except.ok docs)
    (h : index fuel opts src st = (Except.ok (some res), st2)) :
    res.numAdded + res.numSkipped =
      ((_batch (mergeDefaults opts).batchSize docs).map
        (fun b => (_deduplicateInOrder (b.map _HashedDocument.fromDocument)).length)).sum := by
  simp only [index] at h
  cases hguard : ((mergeDefaults opts).cleanup == some "incremental"
      && SourceIdKey.jsFalsy opts.sourceIdKey) with
  | true =>
      rw [hguard] at h
      simp [throwM] at h
  | false =>
      rw [hguard] at h
      simp only [Bool.false_eq_true, if_false] at h
      obtain ⟨docs2, s1, hld, h⟩ := M.bind_eq_ok h
      simp only [liftEx, hload, Prod.mk.injEq, Except.ok.injEq] at hld
      obtain ⟨hd2, hs1⟩ := hld
      subst hd2
      obtain ⟨tRef, s2, hgt, h⟩ := M.bind_eq_ok h
      obtain ⟨counts, s3, hfold, h⟩ := M.bind_eq_ok h
      have hsum := foldBatches_counts _ _ _ _ _ _ _ _ _ hfold
      cases hfull : ((mergeDefaults opts).cleanup == some "full") with
      | true =>
          rw [hfull] at h
          exact absurd
            (finishCleanup_full_no_summary (mergeDefaults opts).cleanupBatchSize tRef fuel
              counts s3 res (by rw [h])) (fun hc => hc)
      | false =>
          rw [hfull] at h
          simp only [finishCleanup, Bool.false_eq_true, if_false] at h
          have h3 : M.pure (some (⟨counts.1, counts.2.1, counts.2.2⟩ : IndexResult)) s3
              = (Except.ok (some res), st2) := h
          obtain ⟨hres, _⟩ := M.pure_eq_ok h3
          have hres2 := Option.some.inj hres
          rw [hres2]
          dsimp only at hsum
          dsimp only
          omega

/-- C10 witness state: empty stores, no injected failure. -/
def c10State : StoreState :=
  { ledger := [], vectors := [], now := 1, trace := [], callIdx := 0, failAt := none }

/-- C10 applied to a concrete run of three documents with one in-batch
duplicate: the summary counts 2 added plus 0 skipped, equal to the 2
survivors of deduplication. -/
theorem C10_added_skipped_account_witness :
    (2 : Nat) + 0 =
      ((_batch (mergeDefaults { sourceIdKey := SourceIdKey.field "source" }).batchSize
          [dDoc, d2Doc, dDoc]).map
        (fun b => (_deduplicateInOrder (b.map _HashedDocument.fromDocument)).length)).sum :=
  C10_added_skipped_account 0 { sourceIdKey := SourceIdKey.field "source" }
    (DocsSource.arr [dDoc, d2Doc, dDoc]) [dDoc, d2Doc, dDoc] c10State
    { ledger := [{ key := dUid, groupId := some "s1", updatedAt := 1 },
                 { key := d2Uid, groupId := some "s2", updatedAt := 1 }],
      vectors := [(dUid, dDoc), (d2Uid, d2Doc)],
      now := 1,
      trace := [Event.rmGetTime, Event.rmExists [dUid, d2Uid],
        Event.vsAddDocuments [dDoc, d2Doc] [dUid, d2Uid],
        Event.rmUpdate [dUid, d2Uid] (some [some "s1", some "s2"]) 1],
      callIdx := 4, failAt := none }
    { numAdded := 2, numSkipped := 0, numDeleted := 0 } rfl rfl

/-- A resolved exists call appends exactly its event. -/
theorem rmExists_ok_state {uids : List String} {s s2 : StoreState} {v : List Bool}
    (h : rmExists uids s = (Except.ok v, s2)) :
    s2.trace = s.trace ++ [Event.rmExists uids] ∧ s2.failAt = s.failAt := by
  obtain ⟨_, hs⟩ := stepCall_ok h
  rw [hs]
  exact ⟨rfl, rfl⟩

/-- A resolved update call appends exactly its event. -/
theorem rmUpdate_ok_state {uids : List String} {g : Option (List (Option String))}
    {t : Nat} {s s2 : StoreState} {v : Unit}
    (h : rmUpdate uids g t s = (Except.ok v, s2)) :
    s2.trace = s.trace ++ [Event.rmUpdate uids g t] ∧ s2.failAt = s.failAt := by
  obtain ⟨_, hs⟩ := stepCall_ok h
  rw [hs]
  exact ⟨rfl, rfl⟩

/-- A resolved list_keys call appends exactly its event. -/
theorem rmListKeys_ok_state {g : Option (List String)} {bf lim : Option Nat}
    {s s2 : StoreState} {v : List String}
    (h : rmListKeys g bf lim s = (Except.ok v, s2)) :
    s2.trace = s.trace ++ [Event.rmListKeys g bf lim] ∧ s2.failAt = s.failAt := by
  obtain ⟨_, hs⟩ := stepCall_ok h
  rw [hs]
  exact ⟨rfl, rfl⟩

/-- A resolved delete_keys call appends exactly its event. -/
theorem rmDeleteKeys_ok_state {uids : List String} {s s2 : StoreState} {v : Unit}
    (h : rmDeleteKeys uids s = (Except.ok v, s2)) :
    s2.trace = s.trace ++ [Event.rmDeleteKeys uids] ∧ s2.failAt = s.failAt := by
  obtain ⟨_, hs⟩ := stepCall_ok h
  rw [hs]
  exact ⟨rfl, rfl⟩

/-- A resolved add_documents call appends exactly its event. -/
theorem vsAddDocuments_ok_state {docs : List Doc} {ids : List String}
    {s s2 : StoreState} {v : Unit}
    (h : vsAddDocuments docs ids s = (Except.ok v, s2)) :
    s2.trace = s.trace ++ [Event.vsAddDocuments docs ids] ∧ s2.failAt = s.failAt := by
  obtain ⟨_, hs⟩ := stepCall_ok h
  rw [hs]
  exact ⟨rfl, rfl⟩

/-- A resolved vector delete call appends exactly its event. -/
theorem vsDelete_ok_state {ids : List String} {s s2 : StoreState} {v : Unit}
    (h : vsDelete ids s = (Except.ok v, s2)) :
    s2.trace = s.trace ++ [Event.vsDelete ids] ∧ s2.failAt = s.failAt := by
  obtain ⟨_, hs⟩ := stepCall_ok h
  rw [hs]
  exact ⟨rfl, rfl⟩

/-- The fire-and-forget refresh update records its call whether it fails or
not (the call is issued; only its outcome is unobserved). -/
theorem fireAndForget_rmUpdate_state {uids : List String}
    {g : Option (List (Option String))} {t : Nat} {s s2 : StoreState} {v : Unit}
    (h : fireAndForget (rmUpdate uids g t) s = (Except.ok v, s2)) :
    s2.trace = s.trace ++ [Event.rmUpdate uids g t] := by
  unfold fireAndForget at h
  rcases hr : rmUpdate uids g t s with ⟨r, s3⟩
  rw [hr] at h
  cases r with
  | ok u =>
      dsimp only at h
      rw [Prod.mk.injEq] at h
      rw [← h.2]
      exact (rmUpdate_ok_state hr).1
  | error e =>
      dsimp only at h
      rw [Prod.mk.injEq] at h
      rw [← h.2]
      unfold rmUpdate stepCall at hr
      split at hr
      · rw [Prod.mk.injEq] at hr
        rw [← hr.2]
        exact rfl
      · simp at hr

/-- The uids handed to the vector store write are a sublist of the batch
uids handed to the ledger update. -/
theorem partitionBatch_uids_sublist (force : Option Bool) :
    ∀ l : List (_HashedDocument × Bool),
      (partitionBatch force l).1.Sublist (l.map (fun p => p.1.uid)) := by
  intro l
  induction l with
  | nil => simp [partitionBatch]
  | cons p rest ih =>
      simp only [partitionBatch, List.map_cons]
      by_cases hc : (p.2 && !(jsTruthyOptBool force)) = true
      · rw [if_pos hc]
        exact ih.cons p.1.uid
      · rw [if_neg hc]
        exact ih.cons₂ p.1.uid

/-- The store-call shape of one resolved batch of _index.ts lines 70 to
158: first the existence check; then possibly the un-awaited refresh
update; then possibly the vector store write, whose ids are a sublist of
the uids of the ledger update that FOLLOWS it; then that awaited ledger
update carrying the group ids; then, only under incremental cleanup, the
stale-key listing and possibly the vector store delete immediately followed
by the record store delete of the same uids. -/
def BatchCallShape (seg : List Event) : Prop :=
  ∃ exUids refreshPart addPart upUids upGids upT incPart,
    seg = Event.rmExists exUids :: (refreshPart ++ addPart
        ++ Event.rmUpdate upUids (some upGids) upT :: incPart)
    ∧ (refreshPart = [] ∨ ∃ ru rt, refreshPart = [Event.rmUpdate ru none rt])
    ∧ (addPart = [] ∨ ∃ ds ids, addPart = [Event.vsAddDocuments ds ids]
        ∧ ids.Sublist upUids)
    ∧ (incPart = []
        ∨ (∃ g bf lim, incPart = [Event.rmListKeys g bf lim])
        ∨ (∃ g bf lim ids, incPart = [Event.rmListKeys g bf lim,
            Event.vsDelete ids, Event.rmDeleteKeys ids]))

/-- Every batch that resolves extends the trace by a segment of the batch
call shape. -/
theorem processBatch_call_shape {inc : Bool} {force : Option Bool}
    {assigner : _HashedDocument → Option String} {t : Nat} {b : List Doc}
    {s s2 : StoreState} {incs : Nat × Nat × Nat}
    (h : processBatch inc force assigner t b s = (Except.ok incs, s2)) :
    ∃ seg, s2.trace = s.trace ++ seg ∧ BatchCallShape seg := by
  simp only [processBatch] at h
  set hs := _deduplicateInOrder (b.map _HashedDocument.fromDocument) with hhs
  obtain ⟨u0, s0, hc, h⟩ := M.bind_eq_ok h
  have hs0 : s0 = s := by
    cases inc with
    | false =>
        simp only [Bool.false_eq_true, if_false] at hc
        exact (M.pure_eq_ok hc).2
    | true =>
        simp only [if_true] at hc
        have hc2 : (checkSourceIds hs (hs.map assigner), s) = (Except.ok u0, s0) := hc
        exact (((Prod.mk.injEq _ _ _ _).mp hc2).2).symm
  obtain ⟨exB, s1, hexists, h⟩ := M.bind_eq_ok h
  have hexstate := rmExists_ok_state hexists
  have hex2 := hexists
  unfold rmExists at hex2
  obtain ⟨hexval, _⟩ := stepCall_ok hex2
  have hexlen : exB.length = hs.length := by rw [hexval]; simp
  set parts := partitionBatch force (hs.zip exB) with hparts
  obtain ⟨skippedInc, sa, hskip, h⟩ := M.bind_eq_ok h
  have hskipshape : ∃ rPart, sa.trace = s1.trace ++ rPart ∧
      (rPart = [] ∨ ∃ ru rt, rPart = [Event.rmUpdate ru none rt]) := by
    by_cases hcnd : parts.2.2.length ≠ 0
    · rw [if_pos hcnd] at hskip
      obtain ⟨uu, su, hff, hp⟩ := M.bind_eq_ok hskip
      have h1 := fireAndForget_rmUpdate_state hff
      have h2 := (M.pure_eq_ok hp).2
      exact ⟨[Event.rmUpdate parts.2.2 none t], by rw [h2, h1], Or.inr ⟨_, _, rfl⟩⟩
    · rw [if_neg hcnd] at hskip
      exact ⟨[], by rw [(M.pure_eq_ok hskip).2, List.append_nil], Or.inl rfl⟩
  obtain ⟨addedInc, sb, hadd, h⟩ := M.bind_eq_ok h
  have haddshape : ∃ aPart, sb.trace = sa.trace ++ aPart ∧
      (aPart = [] ∨ ∃ ds ids, aPart = [Event.vsAddDocuments ds ids]
        ∧ ids.Sublist (hs.map (fun h2 => h2.uid))) := by
    by_cases hcnd2 : parts.2.1.length ≠ 0
    · rw [if_pos hcnd2] at hadd
      obtain ⟨uu, su, hvs, hp⟩ := M.bind_eq_ok hadd
      have h1 := (vsAddDocuments_ok_state hvs).1
      have h2 := (M.pure_eq_ok hp).2
      refine ⟨[Event.vsAddDocuments parts.2.1 parts.1], by rw [h2, h1],
        Or.inr ⟨parts.2.1, parts.1, rfl, ?_⟩⟩
      have hsub := partitionBatch_uids_sublist force (hs.zip exB)
      have hmapeq : (hs.zip exB).map (fun p => p.1.uid) = hs.map (fun h2 => h2.uid) := by
        rw [show (fun (p : _HashedDocument × Bool) => p.1.uid)
            = (fun h2 : _HashedDocument => h2.uid) ∘ Prod.fst from rfl]
        rw [← List.map_map, List.map_fst_zip]
        exact le_of_eq hexlen.symm
      rw [hmapeq] at hsub
      exact hsub
    · rw [if_neg hcnd2] at hadd
      exact ⟨[], by rw [(M.pure_eq_ok hadd).2, List.append_nil], Or.inl rfl⟩
  obtain ⟨u4, sc, hupd, h⟩ := M.bind_eq_ok h
  have hupds := (rmUpdate_ok_state hupd).1
  obtain ⟨deletedInc, sd, hdel, h⟩ := M.bind_eq_ok h
  have hdelshape : ∃ iPart, sd.trace = sc.trace ++ iPart ∧
      (iPart = []
        ∨ (∃ g bf lim, iPart = [Event.rmListKeys g bf lim])
        ∨ (∃ g bf lim ids, iPart = [Event.rmListKeys g bf lim,
            Event.vsDelete ids, Event.rmDeleteKeys ids])) := by
    cases inc with
    | false =>
        simp only [Bool.false_eq_true, if_false] at hdel
        exact ⟨[], by rw [(M.pure_eq_ok hdel).2, List.append_nil], Or.inl rfl⟩
    | true =>
        simp only [if_true] at hdel
        obtain ⟨uc, su1, hchk2, hdel⟩ := M.bind_eq_ok hdel
        have hsu1 : su1 = sc := by
          have hc3 : (checkSourceIds2 (hs.map assigner), sc) = (Except.ok uc, su1) := hchk2
          exact (((Prod.mk.injEq _ _ _ _).mp hc3).2).symm
        obtain ⟨keys, su2, hlk, hdel⟩ := M.bind_eq_ok hdel
        have hlks := (rmListKeys_ok_state hlk).1
        by_cases hcnd3 : keys.length ≠ 0
        · rw [if_pos hcnd3] at hdel
          obtain ⟨uu1, su3, hvd, hdel⟩ := M.bind_eq_ok hdel
          obtain ⟨uu2, su4, hdk, hdel⟩ := M.bind_eq_ok hdel
          have h1 := (vsDelete_ok_state hvd).1
          have h2 := (rmDeleteKeys_ok_state hdk).1
          have h3 := (M.pure_eq_ok hdel).2
          refine ⟨[Event.rmListKeys (some ((hs.map assigner).filterMap id)) (some t) none,
            Event.vsDelete keys, Event.rmDeleteKeys keys], ?_,
            Or.inr (Or.inr ⟨_, _, _, keys, rfl⟩)⟩
          rw [h3, h2, h1, hlks, hsu1]
          simp [List.append_assoc]
        · rw [if_neg hcnd3] at hdel
          refine ⟨[Event.rmListKeys (some ((hs.map assigner).filterMap id)) (some t) none],
            ?_, Or.inr (Or.inl ⟨_, _, _, rfl⟩)⟩
          rw [(M.pure_eq_ok hdel).2, hlks, hsu1]
  have hs2 : s2 = sd := (M.pure_eq_ok h).2
  obtain ⟨rPart, hrtr, hrsh⟩ := hskipshape
  obtain ⟨aPart, hatr, hash⟩ := haddshape
  obtain ⟨iPart, hitr, hish⟩ := hdelshape
  refine ⟨Event.rmExists (hs.map (fun h2 => h2.uid)) :: (rPart ++ aPart
      ++ Event.rmUpdate (hs.map (fun h2 => h2.uid)) (some (hs.map assigner)) t :: iPart),
    ?_, ?_⟩
  · rw [hs2, hitr, hupds, hatr, hrtr, hexstate.1, hs0]
    simp [List.append_assoc]
  · exact ⟨_, rPart, aPart, _, _, _, iPart, rfl, hrsh, hash, hish⟩

/-- The store-call shape of the final full sweep: a sequence of rounds,
each listing stale keys and then deleting them from the vector store
immediately followed by the record store, with identical key lists. -/
inductive SweepCallShape : List Event → Prop where
  | nil : SweepCallShape []
  | round (g : Option (List String)) (bf lim : Option Nat) (ids : List String)
      (rest : List Event) : SweepCallShape rest →
      SweepCallShape (Event.rmListKeys g bf lim :: Event.vsDelete ids ::
        Event.rmDeleteKeys ids :: rest)

/-- Under a failure-free schedule the full sweep extends the trace by a
segment of the sweep call shape, whatever its outcome. -/
theorem fullSweep_call_shape (cbs : Option Nat) (t : Nat) :
    ∀ (fuel acc : Nat) (s : StoreState) (r : Except String (Option Nat)) (s2 : StoreState),
      s.failAt = none → fullSweep cbs t fuel acc s = (r, s2) →
      ∃ seg, s2.trace = s.trace ++ seg ∧ SweepCallShape seg := by
  intro fuel
  induction fuel with
  | zero =>
      intro acc s r s2 hfail h
      have h2 : (Except.ok (none : Option Nat), s) = (r, s2) := h
      have hs2 : s2 = s := ((Prod.mk.injEq _ _ _ _).mp h2).2.symm
      exact ⟨[], by rw [hs2, List.append_nil], SweepCallShape.nil⟩
  | succ n ih =>
      intro acc s r s2 hfail h
      rw [show fullSweep cbs t (Nat.succ n) acc =
        (rmListKeys none (some t) cbs >>= fun uidsToDelete =>
          if jsArrayTruthy uidsToDelete then
            vsDelete uidsToDelete >>= fun _ =>
            rmDeleteKeys uidsToDelete >>= fun _ =>
            fullSweep cbs t n (acc + uidsToDelete.length)
          else M.pure (some acc)) from rfl] at h
      rw [M.run_bind, rmListKeys_apply _ _ _ s hfail, hfail] at h
      simp only [jsArrayTruthy, if_true, M.run_bind, vsDelete_apply, rmDeleteKeys_apply] at h
      obtain ⟨seg2, htr, hsh⟩ := ih _ _ r s2 rfl h
      refine ⟨Event.rmListKeys none (some t) cbs
          :: Event.vsDelete (listKeysPure none (some t) cbs s.ledger)
          :: Event.rmDeleteKeys (listKeysPure none (some t) cbs s.ledger) :: seg2,
        ?_, SweepCallShape.round _ _ _ _ _ hsh⟩
      rw [htr]
      simp [List.append_assoc]

/-- C5: in every resolved batch, the vector store write of the batch's
new-or-forced documents is issued strictly before the awaited record store
update that records the batch uids (and the written ids are among those
uids); and during cleanup, keys are deleted from the vector store
immediately before they are deleted from the record store, both in the
incremental per-batch deletion (first conjunct, batch call shape) and in
the final full sweep (second conjunct, sweep call shape). -/
theorem C5_vector_write_and_delete_ordering :
    (∀ (inc : Bool) (force : Option Bool) (assigner : _HashedDocument → Option String)
        (t : Nat) (b : List Doc) (s s2 : StoreState) (incs : Nat × Nat × Nat),
      processBatch inc force assigner t b s = (Except.ok incs, s2) →
      ∃ seg, s2.trace = s.trace ++ seg ∧ BatchCallShape seg)
    ∧ (∀ (cbs : Option Nat) (t fuel acc : Nat) (s : StoreState)
        (r : Except String (Option Nat)) (s2 : StoreState),
      s.failAt = none → fullSweep cbs t fuel acc s = (r, s2) →
      ∃ seg, s2.trace = s.trace ++ seg ∧ SweepCallShape seg) :=
  ⟨fun _ _ _ _ _ _ _ _ h => processBatch_call_shape h,
   fun cbs t fuel acc s r s2 hf h => fullSweep_call_shape cbs t fuel acc s r s2 hf h⟩

/-- C5 witness states: a fresh single-document batch, and a sweep over one
stale entry. -/
def c5BatchState : StoreState :=
  { ledger := [], vectors := [], now := 1, trace := [], callIdx := 0, failAt := none }

def c5SweepState : StoreState :=
  { ledger := [{ key := "k", groupId := some "g", updatedAt := 0 }], vectors := [("k", dDoc)],
    now := 1, trace := [], callIdx := 0, failAt := none }

/-- C5 applied to a concrete batch and a concrete one-round sweep. -/
theorem C5_vector_write_and_delete_ordering_witness :
    (∃ seg,
      ({ ledger := [{ key := dUid, groupId := some "s1", updatedAt := 1 }],
         vectors := [(dUid, dDoc)], now := 1,
         trace := [Event.rmExists [dUid], Event.vsAddDocuments [dDoc] [dUid],
           Event.rmUpdate [dUid] (some [some "s1"]) 1],
         callIdx := 3, failAt := none } : StoreState).trace
        = c5BatchState.trace ++ seg ∧ BatchCallShape seg)
    ∧ (∃ seg,
      ({ ledger := [], vectors := [], now := 1,
         trace := [Event.rmListKeys none (some 1) (some 1000), Event.vsDelete ["k"],
           Event.rmDeleteKeys ["k"]],
         callIdx := 3, failAt := none } : StoreState).trace
        = c5SweepState.trace ++ seg ∧ SweepCallShape seg) :=
  ⟨C5_vector_write_and_delete_ordering.1 false none
      (_getSourceIdAssigner (SourceIdKey.field "source")) 1 [dDoc] c5BatchState
      { ledger := [{ key := dUid, groupId := some "s1", updatedAt := 1 }],
        vectors := [(dUid, dDoc)], now := 1,
        trace := [Event.rmExists [dUid], Event.vsAddDocuments [dDoc] [dUid],
          Event.rmUpdate [dUid] (some [some "s1"]) 1],
        callIdx := 3, failAt := none }
      (1, 0, 0) rfl,
   C5_vector_write_and_delete_ordering.2 (some 1000) 1 1 0 c5SweepState
      (Except.ok none)
      { ledger := [], vectors := [], now := 1,
        trace := [Event.rmListKeys none (some 1) (some 1000), Event.vsDelete ["k"],
          Event.rmDeleteKeys ["k"]],
        callIdx := 3, failAt := none }
      rfl rfl⟩
